import Mathlib

/-!
Verification of the MahTsIdentity search core (src/main.rs).

The embedding translates the three tools of the program:
* the pattern compiler inside `tool_find_pattern` (main.rs lines 119-163),
* the match/search loop `find_pattern_sync` / `find_pattern_parallel`
  (main.rs lines 219-254), and
* the security-level improvement loop `tool_improve_sec_level`
  (main.rs lines 258-293).

External collaborators (elliptic-curve key generation, SHA1, and
`get_hash_cash_level` from the tsproto crate) are modelled as parameters:
the stream of candidate identifier hashes is a function `Nat → List Nat`
(trial index to 20-byte digest) and the hash-cash scoring function is a
function `Nat → Nat` (offset to level).  The `base64` crate's decoder is
translated below (standard alphabet, `=` padding), since the compiled
pattern's `text` depends on its output.

Machine integers are modelled as `Nat`.  All `u64` values produced by the
compiler stay below `2^64` by construction (6-bit values shifted by at
most 58), and the improvement loop's offsets only grow, so no wrap-around
arithmetic occurs on the paths the claims are about.
-/

namespace MahTsIdentity

/-- `const MAX_PATTERN_LEN: usize = 64 / 6;` (main.rs line 104). -/
def MAX_PATTERN_LEN : Nat := 64 / 6

/-- `struct FindPattern { text: u64, mask: u64 }` (main.rs lines 50-54). -/
structure FindPattern where
  text : Nat
  mask : Nat
deriving DecidableEq, Repr

/-- `struct RunData { patterns: Vec<FindPattern>, exit_when_found: bool }`
(main.rs lines 44-48). -/
structure RunData where
  patterns : List FindPattern
  exit_when_found : Bool

/-- `struct Level { offset: u64, level: u8 }` (main.rs lines 56-59).
The `level` field is `u8`-valued in the source; here it is a `Nat`, and the
scoring functions supplied to the model play the role of
`get_hash_cash_level`, which only produces values below 256. -/
structure Level where
  offset : Nat
  level : Nat
deriving DecidableEq, Repr

/-- The character class accepted as a literal pattern symbol:
`c == '+' || c == '/' || c.is_ascii_alphanumeric()` (main.rs line 128).
Lean's `Char.isAlphanum` is exactly ASCII alphanumeric. -/
def isPatternLiteralChar (c : Char) : Bool :=
  c = '+' || c = '/' || c.isAlphanum

/-- The character class accepted at all by the compiler: a literal or one
of the wildcards `'_'`/`'?'` (main.rs lines 128 and 132). -/
def isPatternChar (c : Char) : Bool :=
  isPatternLiteralChar c || (c = '_' || c = '?')

/-- The per-character scan of the compiler loop (main.rs lines 127-142):
a literal symbol contributes mask byte `0b0011_1111` and is pushed
unchanged onto the working base64 string; a wildcard contributes mask
byte `0` and pushes the neutral `'A'`; any other character aborts with
`Err("Invalid pattern input")`.  The source's early `break` at
`i >= mask_builder.len() - 1` (i ≥ 27) is unreachable because the input
was already checked to hold at most `MAX_PATTERN_LEN = 10` symbols, so it
is not modelled.  Returns (mask bytes, pushed characters). -/
def scanPattern : List Char → Except String (List Nat × List Char)
  | [] => .ok ([], [])
  | c :: rest =>
    if isPatternLiteralChar c then
      match scanPattern rest with
      | .error e => .error e
      | .ok (ms, cs) => .ok (63 :: ms, c :: cs)
    else if c = '_' || c = '?' then
      match scanPattern rest with
      | .error e => .error e
      | .ok (ms, cs) => .ok (0 :: ms, 'A' :: cs)
    else .error ("Invalid pattern input")

/-- The 6-bit value of a standard base64 alphabet character, `none` for
any other character.  Models the alphabet used by `base64::decode`. -/
def b64Val (c : Char) : Option Nat :=
  if 'A' ≤ c && c ≤ 'Z' then some (c.toNat - 65)
  else if 'a' ≤ c && c ≤ 'z' then some (c.toNat - 97 + 26)
  else if '0' ≤ c && c ≤ '9' then some (c.toNat - 48 + 52)
  else if c = '+' then some 62
  else if c = '/' then some 63
  else none

/-- Standard base64 decoding (as performed by `base64::decode` at
main.rs line 153): groups of four symbols decode to three bytes, a final
group `xy==` to one byte and `xyz=` to two bytes; `=` may appear only as
padding of the final group.  The compiler always feeds this a 28-symbol
string ending in `=`, so only the `xyz=` tail shape is exercised. -/
def b64DecodeGroups : List Char → Option (List Nat)
  | [] => some []
  | c1 :: c2 :: c3 :: c4 :: rest =>
    match b64Val c1, b64Val c2 with
    | some v1, some v2 =>
      if c3 = '=' then
        if c4 = '=' && rest.isEmpty then
          some [v1 * 4 + v2 / 16]
        else none
      else
        match b64Val c3 with
        | some v3 =>
          if c4 = '=' then
            if rest.isEmpty then
              some [v1 * 4 + v2 / 16, (v2 % 16) * 16 + v3 / 4]
            else none
          else
            match b64Val c4 with
            | some v4 =>
              match b64DecodeGroups rest with
              | some bs =>
                some ([v1 * 4 + v2 / 16, (v2 % 16) * 16 + v3 / 4,
                       (v3 % 4) * 64 + v4] ++ bs)
              | none => none
            | none => none
        | none => none
    | _, _ => none
  | _ => none

/-- `BigEndian::read_u64(&bytes[0..8])`: the first 8 bytes interpreted as
a big-endian 64-bit integer (main.rs lines 154 and 231).  The source
slices exactly 8 bytes (and would panic on fewer); every byte string it
is applied to has 20 bytes. -/
def readU64BE (bs : List Nat) : Nat :=
  (bs.take 8).foldl (fun acc b => acc * 256 + b) 0

/-- The mask assembly loop (main.rs lines 148-151):
`for (i, mask_b) in mask_builder.iter().enumerate().take(10)
   { mask |= (mask_b as u64) << (58 - 6 * i) }`.
`mask_builder` is a 28-byte array whose entries beyond the scanned input
are zero, modelled by `List.getD` with default 0. -/
def buildMask (ms : List Nat) : Nat :=
  (List.range 10).foldl (fun acc i => acc ||| (ms.getD i 0) <<< (58 - 6 * i)) 0

/-- Compilation of one pattern string, the body of the
`for inp in &opts.patterns` loop (main.rs lines 120-157):
1. reject inputs longer than `MAX_PATTERN_LEN`;
2. scan the characters into mask bytes and a working base64 string
   (the source's length check is on UTF-8 bytes while this one counts
   characters; the two agree on acceptance and on the error produced,
   since every accepted character is a single ASCII byte);
3. pad the working string with `'A'` up to 27 symbols and append `'='`;
4. assemble the 64-bit mask;
5. base64-decode the padded string (`.unwrap()` in the source: the
   failure branch below is unreachable, since the built string is always
   27 base64 symbols followed by `=`) and read its first 8 bytes
   big-endian as `text`;
6. apply `text &= mask`. -/
def compilePattern (inp : List Char) : Except String FindPattern :=
  if inp.length > MAX_PATTERN_LEN then .error ("Invalid pattern input")
  else
    match scanPattern inp with
    | .error e => .error e
    | .ok (ms, cs) =>
      let charBuilder := (cs ++ List.replicate (27 - cs.length) 'A') ++ ['=']
      let mask := buildMask ms
      match b64DecodeGroups charBuilder with
      | none => .error ("base64 decode panicked")
      | some bytes =>
        let text := readU64BE bytes
        .ok ⟨text &&& mask, mask⟩

/-- Compilation of the whole pattern list (main.rs lines 119-163): the
loop aborts the run with the first error; otherwise all compiled patterns
are collected in order. -/
def compilePatterns : List (List Char) → Except String (List FindPattern)
  | [] => .ok []
  | inp :: rest =>
    match compilePattern inp with
    | .error e => .error e
    | .ok p =>
      match compilePatterns rest with
      | .error e => .error e
      | .ok ps => .ok (p :: ps)

/-- `tool_find_pattern` up to the hand-off to the search
(main.rs lines 106-170): an error return means the run aborts before
`find_pattern_parallel` is ever called; an `ok` value is the `RunData`
the search is started with. -/
def tool_find_pattern (inps : List (List Char)) (ewf : Bool) :
    Except String RunData :=
  match compilePatterns inps with
  | .error e => .error e
  | .ok ps => .ok ⟨ps, ewf⟩

/-- The per-pattern match test at main.rs line 231:
`BigEndian::read_u64(&hash[0..8]) & p.mask == p.text`, with the hash
prefix already read into `h`. -/
def matchTest (h : Nat) (p : FindPattern) : Bool :=
  h &&& p.mask == p.text

/-- The matcher loop of `find_pattern_sync` (main.rs lines 230-240): the
patterns are tried in order and the first satisfied one counts, a logical
OR across the list. -/
def matchesAny (hash : List Nat) (ps : List FindPattern) : Bool :=
  ps.any (fun p => matchTest (readU64BE hash) p)

/-- `const FIND_PATTERN_BATCH_SIZE: u32 = 500_000u32;` (main.rs line 217). -/
def FIND_PATTERN_BATCH_SIZE : Nat := 500000

/-- One batch of `find_pattern_parallel`'s
`(0..FIND_PATTERN_BATCH_SIZE).into_par_iter().any(|_| find_pattern_sync(data))`
(main.rs lines 247-249), modelled with the sequential semantics of `any`:
trials run in order and the batch stops at the first trial returning
`true`.  Each trial is `find_pattern_sync` (main.rs lines 219-242) for
candidate hash `hs t` (`t` the global trial index): on a pattern match it
prints the UID/key line — recorded here by appending `t` to the report
list — and returns `data.exit_when_found`; otherwise it returns `false`.
Result: (trial indices reported, whether the batch `any` was true). -/
def runTrials (hs : Nat → List Nat) (d : RunData) :
    Nat → Nat → List Nat × Bool
  | _, 0 => ([], false)
  | base, n + 1 =>
    if matchesAny (hs base) d.patterns then
      if d.exit_when_found then ([base], true)
      else
        let r := runTrials hs d (base + 1) n
        (base :: r.1, r.2)
    else runTrials hs d (base + 1) n

/-- `find_pattern_parallel` for the non-bench mode (main.rs lines 244-254):
`while !found_any { found_any = batch-any }`.  `fuel` bounds how many
batches are observed; a `false` flag after `fuel` batches means the loop
was still running.  Result: (all trial indices reported within the
observed batches, whether the loop terminated). -/
def find_pattern_parallel (hs : Nat → List Nat) (d : RunData) :
    Nat → Nat → List Nat × Bool
  | 0, _ => ([], false)
  | fuel + 1, base =>
    let r := runTrials hs d base FIND_PATTERN_BATCH_SIZE
    if r.2 then (r.1, true)
    else
      let r2 := find_pattern_parallel hs d fuel (base + FIND_PATTERN_BATCH_SIZE)
      (r.1 ++ r2.1, r2.2)

/-- `const BATCH_SIZE: u64 = 500_000;` (main.rs line 269). -/
def BATCH_SIZE : Nat := 500000

/-- The pairwise reduction of
`.max_by(|x, y| x.level.cmp(&y.level))` (main.rs line 278): the left
element wins only when its level is strictly greater, equal levels keep
the later element, as the ordered reduction does. -/
def maxLevel (a b : Level) : Level :=
  if b.level < a.level then a else b

/-- One batch of the improvement loop (main.rs lines 272-279):
`(start_off..start_off + BATCH_SIZE).into_par_iter()
   .map(|i| Level { level: f(i), offset: i }).max_by(level cmp)`.
Modelled as a left fold of `maxLevel` over the offsets in order, seeded
with the first element (folding the first element a second time is a
no-op of `maxLevel`), so the nonempty-range `.expect` needs no case. -/
def batchMax (f : Nat → Nat) (s : Nat) : Level :=
  ((List.range BATCH_SIZE).map (fun i => Level.mk (s + i) (f (s + i)))).foldl
    maxLevel ⟨s, f s⟩

/-- The `loop { ... }` of `tool_improve_sec_level` (main.rs lines 271-292)
with scoring function `f` in place of `get_hash_cash_level(&omega, ·)`:
if the batch maximum strictly exceeds the running best it becomes the new
best, and if it also reaches `want` the loop breaks returning it;
otherwise the next batch starts `BATCH_SIZE` further.  `fuel` bounds the
number of batches observed; `none` means the loop was still running. -/
def improveLoop (f : Nat → Nat) (want : Nat) :
    Nat → Nat → Level → Option Level
  | 0, _, _ => none
  | fuel + 1, startOff, best =>
    let maxRes := batchMax f startOff
    if best.level < maxRes.level then
      if want ≤ maxRes.level then some maxRes
      else improveLoop f want fuel (startOff + BATCH_SIZE) maxRes
    else improveLoop f want fuel (startOff + BATCH_SIZE) best

/-- `tool_improve_sec_level` (main.rs lines 258-293) for an identity whose
scoring function is `f`:
`want_level = opts.level as u8` is the requested level truncated to 8
bits (`% 256`), `start_off = opts.level.unwrap()` is the untruncated
requested level, and the running best is seeded with the starting
offset's own score before the loop begins. -/
def tool_improve_sec_level (f : Nat → Nat) (level : Nat) (fuel : Nat) :
    Option Level :=
  improveLoop f (level % 256) fuel level ⟨level, f level⟩

/-- The update applied to the `best` variable by one loop iteration
(main.rs lines 280-286), ignoring the `break`: `best` is replaced exactly
when the batch maximum strictly exceeds it. -/
def stepBest (f : Nat → Nat) (s : Nat) (best : Level) : Level :=
  if best.level < (batchMax f s).level then batchMax f s else best

/-- Iteration of a per-batch state update `g`: `k` batches starting at
offset `s` from state `b`, each batch advancing the offset by
`BATCH_SIZE`. -/
def loopIter (g : Nat → Level → Level) : Nat → Nat → Level → Level
  | 0, _, best => best
  | k + 1, s, best => loopIter g k (s + BATCH_SIZE) (g s best)

/-- The value of the `best` variable after `k` iterations of the
improvement loop starting at offset `s` (the `break` only ends the
iteration sequence early; while the loop runs, `best` evolves by
`stepBest` and `start_off` advances by `BATCH_SIZE`). -/
def bestAfter (f : Nat → Nat) : Nat → Nat → Level → Level :=
  loopIter (stepBest f)

end MahTsIdentity

namespace MahTsIdentity

/-! ### Lemmas about the pattern compiler -/

theorem scanPattern_err (inp : List Char)
    (h : ∃ c ∈ inp, isPatternChar c = false) :
    scanPattern inp = .error ("Invalid pattern input") := by
  induction inp with
  | nil => simp at h
  | cons c rest ih =>
    by_cases hc : isPatternChar c = true
    · have hrest : scanPattern rest = .error ("Invalid pattern input") := by
        apply ih
        obtain ⟨d, hd, hbad⟩ := h
        rcases List.mem_cons.mp hd with rfl | hmem
        · rw [hc] at hbad; cases hbad
        · exact ⟨d, hmem, hbad⟩
      by_cases hlit : isPatternLiteralChar c = true
      · simp only [scanPattern, hlit, if_true, hrest]
      · rw [Bool.not_eq_true] at hlit
        have hwild : (c = '_' || c = '?' : Bool) = true := by
          unfold isPatternChar at hc
          rw [hlit] at hc
          simpa using hc
        simp only [scanPattern, hlit, Bool.false_eq_true, if_false, hwild,
          if_true, hrest]
    · rw [Bool.not_eq_true] at hc
      have hsplit : isPatternLiteralChar c = false
          ∧ (c = '_' || c = '?' : Bool) = false := by
        unfold isPatternChar at hc
        revert hc
        cases isPatternLiteralChar c <;>
          cases (c = '_' || c = '?' : Bool) <;> simp
      simp only [scanPattern, hsplit.1, Bool.false_eq_true, if_false, hsplit.2]

theorem compilePattern_err (inp : List Char)
    (h : (∃ c ∈ inp, isPatternChar c = false) ∨ inp.length > MAX_PATTERN_LEN) :
    compilePattern inp = .error ("Invalid pattern input") := by
  by_cases hlen : inp.length > MAX_PATTERN_LEN
  · unfold compilePattern; rw [if_pos hlen]
  · rcases h with hbad | hlen2
    · unfold compilePattern
      rw [if_neg hlen, scanPattern_err inp hbad]
    · exact absurd hlen2 hlen

theorem compilePatterns_err (inps : List (List Char)) (inp : List Char)
    (hmem : inp ∈ inps)
    (herr : compilePattern inp = .error ("Invalid pattern input")) :
    ∃ e, compilePatterns inps = .error e := by
  induction inps with
  | nil => simp at hmem
  | cons a rest ih =>
    rcases List.mem_cons.mp hmem with rfl | hmem2
    · exact ⟨"Invalid pattern input", by simp only [compilePatterns, herr]⟩
    · cases ha : compilePattern a with
      | error e => exact ⟨e, by simp only [compilePatterns, ha]⟩
      | ok p =>
        obtain ⟨e, he⟩ := ih hmem2
        exact ⟨e, by simp only [compilePatterns, ha, he]⟩

/-! ### Claims C1, C2, C3, C8 -/

/-- Claim C1: for every pattern string accepted by the pattern compiler, the
resulting `FindPattern` satisfies `text &&& mask = text` — every bit of
`text` outside the mask is zero (enforced by the final `text &= mask`). -/
theorem claim1_text_within_mask (inp : List Char) (p : FindPattern)
    (h : compilePattern inp = .ok p) : p.text &&& p.mask = p.text := by
  unfold compilePattern at h
  by_cases hlen : inp.length > MAX_PATTERN_LEN
  · rw [if_pos hlen] at h; cases h
  · rw [if_neg hlen] at h
    cases hscan : scanPattern inp with
    | error e => rw [hscan] at h; cases h
    | ok pair =>
      obtain ⟨ms, cs⟩ := pair
      rw [hscan] at h
      dsimp only at h
      cases hdec : b64DecodeGroups
          ((cs ++ List.replicate (27 - cs.length) 'A') ++ ['=']) with
      | none => rw [hdec] at h; cases h
      | some bytes =>
        rw [hdec] at h
        rw [Except.ok.injEq] at h
        subst h
        dsimp only
        rw [Nat.and_assoc, Nat.and_self]

/-- Witness for C1 at the concrete pattern string `"A"`. -/
theorem claim1_witness :
    compilePattern ['A'] = .ok ⟨0, 0xFC00000000000000⟩
    ∧ (FindPattern.mk 0 0xFC00000000000000).text &&&
        (FindPattern.mk 0 0xFC00000000000000).mask =
        (FindPattern.mk 0 0xFC00000000000000).text :=
  ⟨rfl, claim1_text_within_mask ['A'] ⟨0, 0xFC00000000000000⟩ rfl⟩

/-- Claim C2: an input pattern containing any character that is neither a
base64 alphabet character (`A-Z a-z 0-9 + /`) nor a wildcard (`_`/`?`), or
longer than 10 symbols, makes compilation fail with the
`InvalidPatternError` message, no pattern is produced for it, and the whole
run aborts (with some error) before any search starts. -/
theorem claim2_invalid_pattern_aborts (inp : List Char)
    (h : (∃ c ∈ inp, isPatternChar c = false) ∨ inp.length > MAX_PATTERN_LEN) :
    compilePattern inp = .error ("Invalid pattern input")
    ∧ ∀ (pre post : List (List Char)) (ewf : Bool),
        ∃ e, tool_find_pattern (pre ++ inp :: post) ewf = .error e := by
  have herr := compilePattern_err inp h
  refine ⟨herr, fun pre post ewf => ?_⟩
  obtain ⟨e, he⟩ := compilePatterns_err (pre ++ inp :: post) inp (by simp) herr
  exact ⟨e, by simp only [tool_find_pattern, he]⟩

/-- Witness for C2 at the concrete input `" "` (a single space). -/
theorem claim2_witness :
    compilePattern [' '] = .error ("Invalid pattern input")
    ∧ ∃ e, tool_find_pattern [[' ']] true = .error e :=
  ⟨(claim2_invalid_pattern_aborts [' ']
      (Or.inl ⟨' ', List.mem_singleton.mpr rfl, by decide⟩)).1,
   (claim2_invalid_pattern_aborts [' ']
      (Or.inl ⟨' ', List.mem_singleton.mpr rfl, by decide⟩)).2 [] [] true⟩

/-- Claim C3: for every 20-byte identifier hash and non-empty pattern list,
the matcher returns `true` iff some pattern `p` of the list satisfies
`h &&& p.mask = p.text`, where `h` is the first 8 bytes of the hash read
big-endian (a logical OR across the patterns in list order). -/
theorem claim3_matcher_iff (hash : List Nat) (ps : List FindPattern)
    (hlen : hash.length = 20) (hne : ps ≠ []) :
    (matchesAny hash ps = true ↔
      ∃ p ∈ ps, readU64BE hash &&& p.mask = p.text) := by
  simp only [matchesAny, List.any_eq_true, matchTest, beq_iff_eq]

/-- Witness for C3: the all-zero 20-byte hash against the single
all-wildcard pattern. -/
theorem claim3_witness :
    matchesAny (List.replicate 20 0) [(⟨0, 0⟩ : FindPattern)] = true ↔
      ∃ p ∈ [(⟨0, 0⟩ : FindPattern)],
        readU64BE (List.replicate 20 0) &&& p.mask = p.text :=
  claim3_matcher_iff (List.replicate 20 0) [⟨0, 0⟩] (by simp) (by simp)

/-- Claim C8: the pattern string `"AB__"` compiles to a mask whose first
two 6-bit groups (the top 12 bits of the 64-bit window) are fully set and
whose next two 6-bit groups are fully clear, and to a text whose top two
6-bit groups are the base64 codes of `'A'` (0) and `'B'` (1). -/
theorem claim8_AB_wildcards :
    compilePattern ['A', 'B', '_', '_'] =
        .ok ⟨0x0010000000000000, 0xFFF0000000000000⟩
    ∧ ((0xFFF0000000000000 : Nat) >>> 58) &&& 63 = 63
    ∧ ((0xFFF0000000000000 : Nat) >>> 52) &&& 63 = 63
    ∧ ((0xFFF0000000000000 : Nat) >>> 46) &&& 63 = 0
    ∧ ((0xFFF0000000000000 : Nat) >>> 40) &&& 63 = 0
    ∧ ((0x0010000000000000 : Nat) >>> 58) &&& 63 = 0
    ∧ ((0x0010000000000000 : Nat) >>> 52) &&& 63 = 1 :=
  ⟨rfl, by decide, by decide, by decide, by decide, by decide, by decide⟩

end MahTsIdentity

namespace MahTsIdentity

/-! ### Lemmas about batch maxima and the improvement loop -/

theorem foldl_maxLevel_le (l : List Level) (a : Level) :
    a.level ≤ (l.foldl maxLevel a).level
    ∧ ∀ x ∈ l, x.level ≤ (l.foldl maxLevel a).level := by
  induction l generalizing a with
  | nil => simp
  | cons b t ih =>
    have step : a.level ≤ (maxLevel a b).level
        ∧ b.level ≤ (maxLevel a b).level := by
      unfold maxLevel; split <;> omega
    refine ⟨le_trans step.1 (ih (maxLevel a b)).1, ?_⟩
    intro x hx
    rcases List.mem_cons.mp hx with rfl | hmem
    · exact le_trans step.2 (ih (maxLevel a x)).1
    · exact (ih (maxLevel a b)).2 x hmem

theorem foldl_maxLevel_mem (l : List Level) (a : Level) :
    l.foldl maxLevel a = a ∨ l.foldl maxLevel a ∈ l := by
  induction l generalizing a with
  | nil => simp
  | cons b t ih =>
    rw [List.foldl_cons]
    rcases ih (maxLevel a b) with h | h
    · rw [h]; unfold maxLevel; split
      · exact Or.inl rfl
      · exact Or.inr (List.mem_cons_self b t)
    · exact Or.inr (List.mem_cons_of_mem b h)

theorem batchMax_ge (f : Nat → Nat) (s i : Nat) (hi : i < BATCH_SIZE) :
    f (s + i) ≤ (batchMax f s).level := by
  unfold batchMax
  exact (foldl_maxLevel_le _ ⟨s, f s⟩).2 ⟨s + i, f (s + i)⟩
    (List.mem_map.mpr ⟨i, List.mem_range.mpr hi, rfl⟩)

theorem batchMax_mem (f : Nat → Nat) (s : Nat) :
    ∃ i < BATCH_SIZE, batchMax f s = ⟨s + i, f (s + i)⟩ := by
  rcases foldl_maxLevel_mem
      ((List.range BATCH_SIZE).map (fun i => Level.mk (s + i) (f (s + i))))
      ⟨s, f s⟩ with h | h
  · refine ⟨0, by norm_num [BATCH_SIZE], ?_⟩
    unfold batchMax
    rw [h]
    simp
  · obtain ⟨i, hi, he⟩ := List.mem_map.mp h
    exact ⟨i, List.mem_range.mp hi, by unfold batchMax; rw [← he]⟩

theorem batchMax_level_eq (f : Nat → Nat) (s c : Nat)
    (hub : ∀ i < BATCH_SIZE, f (s + i) ≤ c)
    (hat : ∃ j < BATCH_SIZE, f (s + j) = c) :
    (batchMax f s).level = c := by
  obtain ⟨j, hj, hfj⟩ := hat
  have h1 : c ≤ (batchMax f s).level := hfj ▸ batchMax_ge f s j hj
  obtain ⟨i, hi, he⟩ := batchMax_mem f s
  have h2 : (batchMax f s).level ≤ c := by rw [he]; exact hub i hi
  omega

theorem batchMax_congr (f g : Nat → Nat) (s : Nat)
    (h : ∀ i < BATCH_SIZE, f (s + i) = g (s + i)) :
    batchMax f s = batchMax g s := by
  have h0 : f s = g s := by
    have := h 0 (by norm_num [BATCH_SIZE])
    simpa using this
  have hmap : (List.range BATCH_SIZE).map (fun i => Level.mk (s + i) (f (s + i)))
      = (List.range BATCH_SIZE).map (fun i => Level.mk (s + i) (g (s + i))) := by
    apply List.map_congr_left
    intro i hi
    rw [h i (List.mem_range.mp hi)]
  unfold batchMax
  rw [hmap, h0]

/- `batchMax` is only ever reasoned about through the lemmas above; keeping
it reducible tempts definitional unfolding into materializing
`List.range BATCH_SIZE` (500000 elements), which no proof needs. -/
attribute [irreducible] batchMax

theorem improveLoop_succ (f : Nat → Nat) (want fuel s : Nat) (b : Level) :
    improveLoop f want (fuel + 1) s b =
      if b.level < (batchMax f s).level then
        if want ≤ (batchMax f s).level then some (batchMax f s)
        else improveLoop f want fuel (s + BATCH_SIZE) (batchMax f s)
      else improveLoop f want fuel (s + BATCH_SIZE) b := rfl

theorem improveLoop_lt_of_some (f : Nat → Nat) (want : Nat) :
    ∀ fuel s b r, improveLoop f want fuel s b = some r →
      b.level < r.level := by
  intro fuel
  induction fuel with
  | zero => intro s b r h; cases h
  | succ n ih =>
    intro s b r h
    rw [improveLoop_succ] at h
    by_cases h1 : b.level < (batchMax f s).level
    · rw [if_pos h1] at h
      by_cases h2 : want ≤ (batchMax f s).level
      · rw [if_pos h2] at h
        rw [← Option.some.inj h]
        exact h1
      · rw [if_neg h2] at h
        exact lt_trans h1 (ih (s + BATCH_SIZE) (batchMax f s) r h)
    · rw [if_neg h1] at h
      exact ih (s + BATCH_SIZE) b r h

theorem improveLoop_want_le (f : Nat → Nat) (want : Nat) :
    ∀ fuel s b r, improveLoop f want fuel s b = some r →
      want ≤ r.level := by
  intro fuel
  induction fuel with
  | zero => intro s b r h; cases h
  | succ n ih =>
    intro s b r h
    rw [improveLoop_succ] at h
    by_cases h1 : b.level < (batchMax f s).level
    · rw [if_pos h1] at h
      by_cases h2 : want ≤ (batchMax f s).level
      · rw [if_pos h2] at h
        rw [← Option.some.inj h]
        exact h2
      · rw [if_neg h2] at h
        exact ih (s + BATCH_SIZE) (batchMax f s) r h
    · rw [if_neg h1] at h
      exact ih (s + BATCH_SIZE) b r h

theorem improveLoop_offset_ge (f : Nat → Nat) (want : Nat) :
    ∀ fuel s b r, improveLoop f want fuel s b = some r →
      s ≤ r.offset := by
  intro fuel
  induction fuel with
  | zero => intro s b r h; cases h
  | succ n ih =>
    intro s b r h
    rw [improveLoop_succ] at h
    by_cases h1 : b.level < (batchMax f s).level
    · rw [if_pos h1] at h
      by_cases h2 : want ≤ (batchMax f s).level
      · rw [if_pos h2] at h
        rw [← Option.some.inj h]
        obtain ⟨i, hi, he⟩ := batchMax_mem f s
        rw [he]
        exact Nat.le_add_right s i
      · rw [if_neg h2] at h
        exact le_trans (Nat.le_add_right s BATCH_SIZE)
          (ih (s + BATCH_SIZE) (batchMax f s) r h)
    · rw [if_neg h1] at h
      exact le_trans (Nat.le_add_right s BATCH_SIZE)
        (ih (s + BATCH_SIZE) b r h)

theorem improveLoop_congr (f g : Nat → Nat) (want : Nat) :
    ∀ fuel s b, (∀ i, s ≤ i → i < s + fuel * BATCH_SIZE → f i = g i) →
      improveLoop f want fuel s b = improveLoop g want fuel s b := by
  intro fuel
  induction fuel with
  | zero => intro s b h; rfl
  | succ n ih =>
    intro s b h
    have hB : 0 < BATCH_SIZE := by norm_num [BATCH_SIZE]
    have hb : batchMax f s = batchMax g s := by
      apply batchMax_congr
      intro i hi
      exact h (s + i) (Nat.le_add_right s i) (by rw [Nat.succ_mul]; omega)
    have hrest : ∀ i, s + BATCH_SIZE ≤ i → i < s + BATCH_SIZE + n * BATCH_SIZE →
        f i = g i := by
      intro i h1 h2
      exact h i (by omega) (by rw [Nat.succ_mul]; omega)
    rw [improveLoop_succ, improveLoop_succ, hb]
    by_cases h1 : b.level < (batchMax g s).level
    · rw [if_pos h1, if_pos h1]
      by_cases h2 : want ≤ (batchMax g s).level
      · rw [if_pos h2, if_pos h2]
      · rw [if_neg h2, if_neg h2]
        exact ih (s + BATCH_SIZE) (batchMax g s) hrest
    · rw [if_neg h1, if_neg h1]
      exact ih (s + BATCH_SIZE) b hrest

theorem stepBest_le (f : Nat → Nat) (s : Nat) (b : Level) :
    b.level ≤ (stepBest f s b).level := by
  unfold stepBest; split <;> omega

theorem loopIter_succ (g : Nat → Level → Level) (n s : Nat) (b : Level) :
    loopIter g (n + 1) s b = loopIter g n (s + BATCH_SIZE) (g s b) := rfl

theorem bestAfter_succ (f : Nat → Nat) (n s : Nat) (b : Level) :
    bestAfter f (n + 1) s b =
      bestAfter f n (s + BATCH_SIZE) (stepBest f s b) :=
  loopIter_succ (stepBest f) n s b

theorem bestAfter_le (f : Nat → Nat) :
    ∀ k s b, b.level ≤ (bestAfter f k s b).level := by
  intro k
  induction k with
  | zero => intro s b; exact le_refl _
  | succ n ih =>
    intro s b
    rw [bestAfter_succ]
    exact le_trans (stepBest_le f s b) (ih (s + BATCH_SIZE) (stepBest f s b))

theorem bestAfter_add (f : Nat → Nat) :
    ∀ k d s b, bestAfter f (k + d) s b =
      bestAfter f d (s + k * BATCH_SIZE) (bestAfter f k s b) := by
  intro k
  induction k with
  | zero => intro d s b; simp [bestAfter, loopIter]
  | succ n ih =>
    intro d s b
    have harith : n + 1 + d = (n + d) + 1 := by omega
    rw [harith, bestAfter_succ]
    rw [ih d (s + BATCH_SIZE) (stepBest f s b)]
    rw [← bestAfter_succ]
    have h2 : s + BATCH_SIZE + n * BATCH_SIZE = s + (n + 1) * BATCH_SIZE := by
      rw [Nat.succ_mul]; omega
    rw [h2]

end MahTsIdentity

namespace MahTsIdentity

/-! ### Claims C6, C4, C9, C10 -/

/-- Claim C6: for a fixed scoring function and offset sequence, the
improvement loop's running best level is monotonically non-decreasing
across batches, and one batch replaces the stored best only when the
batch maximum strictly exceeds it. -/
theorem claim6_best_monotone (f : Nat → Nat) (s : Nat) (b : Level)
    (k k' : Nat) (h : k ≤ k') :
    (bestAfter f k s b).level ≤ (bestAfter f k' s b).level
    ∧ (stepBest f s b = b
       ∨ (b.level < (batchMax f s).level ∧ stepBest f s b = batchMax f s)) := by
  constructor
  · obtain ⟨d, rfl⟩ := Nat.exists_eq_add_of_le h
    rw [bestAfter_add]
    exact bestAfter_le f d (s + k * BATCH_SIZE) (bestAfter f k s b)
  · unfold stepBest
    split
    · exact Or.inr ⟨by assumption, rfl⟩
    · exact Or.inl rfl

/-- A constant-zero scoring function, used as a concrete instance. -/
def constZero : Nat → Nat := fun _ => 0

/-- Witness for C6 with the constant-zero scoring function, comparing the
running best after 0 and after 1 batches. -/
theorem claim6_witness :
    (bestAfter constZero 0 0 ⟨0, 5⟩).level ≤
      (bestAfter constZero 1 0 ⟨0, 5⟩).level
    ∧ (stepBest constZero 0 ⟨0, 5⟩ = ⟨0, 5⟩
       ∨ ((Level.mk 0 5).level < (batchMax constZero 0).level
          ∧ stepBest constZero 0 ⟨0, 5⟩ = batchMax constZero 0)) :=
  claim6_best_monotone constZero 0 ⟨0, 5⟩ 0 1 (by omega)

/-- A scoring function that is 0 on the first batch of offsets and 1 from
offset 500000 on: the improvement loop seeded at offset 0 scores a full
first batch without stopping and returns from the second batch. -/
def scoreJump : Nat → Nat := fun i => if i < 500000 then 0 else 1

theorem scoreJump_batch0 : (batchMax scoreJump 0).level = 0 := by
  apply batchMax_level_eq
  · intro i hi
    have hilt : i < 500000 := hi
    simp only [scoreJump, Nat.zero_add, if_pos hilt]
    exact le_refl 0
  · refine ⟨0, by norm_num [BATCH_SIZE], ?_⟩
    simp [scoreJump]

theorem scoreJump_batch1 : (batchMax scoreJump 500000).level = 1 := by
  apply batchMax_level_eq
  · intro i hi
    have : ¬(500000 + i < 500000) := by omega
    simp only [scoreJump, if_neg this]
    exact le_refl 1
  · refine ⟨0, by norm_num [BATCH_SIZE], ?_⟩
    simp [scoreJump]

theorem improve_scoreJump_two :
    tool_improve_sec_level scoreJump 0 2 = some (batchMax scoreJump 500000) := by
  show improveLoop scoreJump 0 (1 + 1) 0 ⟨0, 0⟩ = some (batchMax scoreJump 500000)
  rw [improveLoop_succ, if_neg (by rw [scoreJump_batch0]; exact lt_irrefl _)]
  show improveLoop scoreJump 0 (0 + 1) 500000 ⟨0, 0⟩ = _
  rw [improveLoop_succ,
    if_pos (by rw [scoreJump_batch1]; exact Nat.zero_lt_one),
    if_pos (by rw [scoreJump_batch1]; exact Nat.zero_le 1)]

theorem improve_scoreJump_one :
    tool_improve_sec_level scoreJump 0 1 = none := by
  show improveLoop scoreJump 0 (0 + 1) 0 ⟨0, 0⟩ = none
  rw [improveLoop_succ, if_neg (by rw [scoreJump_batch0]; exact lt_irrefl _)]
  rfl

/-- Claim C4 counterexample: with the scoring function `scoreJump` (a
possible behaviour of the external hash-cash scorer) and target level 0,
the run does not terminate within the first scored batch (the result is
still pending after one batch), a second batch is scored, and the value
returned has level 1, which is not the level score `scoreJump 0 = 0` of
the starting offset.  This contradicts "terminates immediately, returning
the level score of the starting offset, without scoring any further
batch". -/
theorem claim4_counterexample :
    tool_improve_sec_level scoreJump 0 1 = none
    ∧ (tool_improve_sec_level scoreJump 0 2).map Level.level = some 1
    ∧ scoreJump 0 = 0 := by
  refine ⟨improve_scoreJump_one, ?_, rfl⟩
  rw [improve_scoreJump_two, Option.map_some', scoreJump_batch1]

/-- Claim C4 (amended): running level-improvement with `target_level = 0`
does not stop before scoring a batch (after zero batches the loop is
still running), and whenever it terminates it returns a batch maximum
whose level strictly exceeds the starting offset's own score — the loop
only breaks on a strict improvement over the seeded running best, so the
seed score itself is never returned. -/
theorem claim4_amended (f : Nat → Nat) (fuel : Nat) (r : Level)
    (h : tool_improve_sec_level f 0 fuel = some r) :
    f 0 < r.level ∧ tool_improve_sec_level f 0 0 = none := by
  refine ⟨?_, rfl⟩
  have := improveLoop_lt_of_some f (0 % 256) fuel 0 ⟨0, f 0⟩ r h
  simpa using this

/-- Witness for the amended C4 at the concrete scoring function
`scoreJump` with fuel 2. -/
theorem claim4_witness :
    scoreJump 0 < (batchMax scoreJump 500000).level
    ∧ tool_improve_sec_level scoreJump 0 0 = none :=
  claim4_amended scoreJump 2 (batchMax scoreJump 500000) improve_scoreJump_two

/-- A scoring function that is 0 at offset 256 and 255 elsewhere, used to
exercise the improvement run requested with level 256. -/
def scoreWide : Nat → Nat := fun i => if i = 256 then 0 else 255

theorem scoreWide_batch : (batchMax scoreWide 256).level = 255 := by
  apply batchMax_level_eq
  · intro i hi
    unfold scoreWide
    split
    · exact Nat.zero_le 255
    · exact le_refl 255
  · refine ⟨1, by norm_num [BATCH_SIZE], ?_⟩
    simp [scoreWide]

theorem improve_scoreWide_one :
    tool_improve_sec_level scoreWide 256 1 = some (batchMax scoreWide 256) := by
  show improveLoop scoreWide 0 (0 + 1) 256 ⟨256, 0⟩ = some (batchMax scoreWide 256)
  rw [improveLoop_succ,
    if_pos (by rw [scoreWide_batch]; norm_num),
    if_pos (by rw [scoreWide_batch]; exact Nat.zero_le 255)]

/-- Claim C9: the level the improvement run's stop test compares against
is the user-supplied 64-bit level value truncated to 8 bits
(`opts.level as u8`, i.e. reduced mod 256): every returned result reaches
`level % 256` (not necessarily `level`), and a requested level of 256
behaves as a target of 0 — the run returns as soon as any batch maximum
strictly exceeds the seed score, regardless of how small it is. -/
theorem claim9_target_truncated :
    (∀ (f : Nat → Nat) (level fuel : Nat) (r : Level),
        tool_improve_sec_level f level fuel = some r → level % 256 ≤ r.level)
    ∧ (∀ (f : Nat → Nat) (fuel : Nat) (r : Level),
        tool_improve_sec_level f 256 fuel = some r → f 256 < r.level) := by
  constructor
  · intro f level fuel r h
    exact improveLoop_want_le f (level % 256) fuel level ⟨level, f level⟩ r h
  · intro f fuel r h
    simpa using
      improveLoop_lt_of_some f (256 % 256) fuel 256 ⟨256, f 256⟩ r h

/-- Witness for C9: the run requested with level 256 terminates with a
result of level 255 < 256, which reaches the truncated target
`256 % 256 = 0` but not the untruncated 256. -/
theorem claim9_witness :
    (256 % 256 : Nat) ≤ (batchMax scoreWide 256).level
    ∧ scoreWide 256 < (batchMax scoreWide 256).level
    ∧ (batchMax scoreWide 256).level = 255 :=
  ⟨claim9_target_truncated.1 scoreWide 256 1 _ improve_scoreWide_one,
   claim9_target_truncated.2 scoreWide 1 _ improve_scoreWide_one,
   scoreWide_batch⟩

/-- Claim C10: the improvement search starts at the numeric value of the
user-supplied level argument itself (`start_off = opts.level`): the run's
outcome depends only on scores of offsets from `level` upward (below
`level + fuel·BATCH_SIZE`), and any returned candidate's offset is at
least `level`. -/
theorem claim10_start_at_level :
    (∀ (f g : Nat → Nat) (level fuel : Nat),
        (∀ i, level ≤ i → i < level + fuel * BATCH_SIZE → f i = g i) →
        tool_improve_sec_level f level fuel = tool_improve_sec_level g level fuel)
    ∧ (∀ (f : Nat → Nat) (level fuel : Nat) (r : Level),
        tool_improve_sec_level f level fuel = some r → level ≤ r.offset) := by
  constructor
  · intro f g level fuel h
    cases fuel with
    | zero => rfl
    | succ n =>
      have hB : 0 < BATCH_SIZE := by norm_num [BATCH_SIZE]
      have hseed : f level = g level := by
        apply h level (le_refl level)
        rw [Nat.succ_mul]
        omega
      unfold tool_improve_sec_level
      rw [hseed]
      exact improveLoop_congr f g (level % 256) (n + 1) level ⟨level, g level⟩ h
  · intro f level fuel r h
    exact improveLoop_offset_ge f (level % 256) fuel level ⟨level, f level⟩ r h

/-- Witness for C10 at the concrete scoring function `scoreWide` and
level 256. -/
theorem claim10_witness :
    tool_improve_sec_level scoreWide 256 1 =
      tool_improve_sec_level scoreWide 256 1
    ∧ (256 : Nat) ≤ (batchMax scoreWide 256).offset :=
  ⟨claim10_start_at_level.1 scoreWide scoreWide 256 1 (fun i h1 h2 => rfl),
   claim10_start_at_level.2 scoreWide 256 1 _ improve_scoreWide_one⟩

end MahTsIdentity

namespace MahTsIdentity

/-! ### Lemmas about the vanity search loop, and claim C5 -/

theorem runTrials_succ (hs : Nat → List Nat) (d : RunData) (base n : Nat) :
    runTrials hs d base (n + 1) =
      if matchesAny (hs base) d.patterns then
        if d.exit_when_found then ([base], true)
        else (base :: (runTrials hs d (base + 1) n).1,
              (runTrials hs d (base + 1) n).2)
      else runTrials hs d (base + 1) n := rfl

theorem find_pattern_parallel_succ (hs : Nat → List Nat) (d : RunData)
    (fuel base : Nat) :
    find_pattern_parallel hs d (fuel + 1) base =
      if (runTrials hs d base FIND_PATTERN_BATCH_SIZE).2 then
        ((runTrials hs d base FIND_PATTERN_BATCH_SIZE).1, true)
      else
        ((runTrials hs d base FIND_PATTERN_BATCH_SIZE).1 ++
           (find_pattern_parallel hs d fuel (base + FIND_PATTERN_BATCH_SIZE)).1,
         (find_pattern_parallel hs d fuel (base + FIND_PATTERN_BATCH_SIZE)).2) :=
  rfl

theorem range_map_shift (base m : Nat) :
    (List.range (m + 1)).map (base + ·) =
      base :: (List.range m).map ((base + 1) + ·) := by
  rw [List.range_succ_eq_map, List.map_cons, List.map_map]
  have htail : (List.range m).map ((base + ·) ∘ Nat.succ) =
      (List.range m).map ((base + 1) + ·) := by
    apply List.map_congr_left
    intro i hi
    simp only [Function.comp_apply, Nat.succ_eq_add_one]
    omega
  rw [htail]
  simp

theorem runTrials_no_exit (hs : Nat → List Nat) (ps : List FindPattern) :
    ∀ n base,
      runTrials hs ⟨ps, false⟩ base n =
        (((List.range n).map (base + ·)).filter
            (fun t => matchesAny (hs t) ps), false) := by
  intro n
  induction n with
  | zero => intro base; rfl
  | succ m ih =>
    intro base
    rw [runTrials_succ]
    rw [range_map_shift base m, List.filter_cons]
    cases hmatch : matchesAny (hs base) ps with
    | true =>
      rw [ih (base + 1)]
      simp [hmatch]
    | false =>
      rw [ih (base + 1)]
      simp [hmatch]

theorem runTrials_exit (hs : Nat → List Nat) (ps : List FindPattern) :
    ∀ n base,
      ((∀ i < n, matchesAny (hs (base + i)) ps = false)
         ∧ runTrials hs ⟨ps, true⟩ base n = ([], false))
      ∨ (∃ i < n, matchesAny (hs (base + i)) ps = true
           ∧ (∀ j < i, matchesAny (hs (base + j)) ps = false)
           ∧ runTrials hs ⟨ps, true⟩ base n = ([base + i], true)) := by
  intro n
  induction n with
  | zero => intro base; exact Or.inl ⟨by omega, rfl⟩
  | succ m ih =>
    intro base
    cases hmatch : matchesAny (hs base) ps with
    | true =>
      refine Or.inr ⟨0, by omega, ?_, by omega, ?_⟩
      · rw [Nat.add_zero]; exact hmatch
      · rw [runTrials_succ, Nat.add_zero]
        simp only [hmatch, if_true]
        rfl
    | false =>
      rcases ih (base + 1) with ⟨hall, heq⟩ | ⟨i, hi, hm, hfirst, heq⟩
      · refine Or.inl ⟨?_, ?_⟩
        · intro i hilt
          cases i with
          | zero => simpa using hmatch
          | succ j =>
            have := hall j (by omega)
            have harith : base + (j + 1) = base + 1 + j := by omega
            rw [harith]
            exact this
        · rw [runTrials_succ]
          simp only [hmatch, Bool.false_eq_true, if_false]
          exact heq
      · refine Or.inr ⟨i + 1, by omega, ?_, ?_, ?_⟩
        · have harith : base + (i + 1) = base + 1 + i := by omega
          rw [harith]
          exact hm
        · intro j hj
          cases j with
          | zero => simpa using hmatch
          | succ l =>
            have := hfirst l (by omega)
            have harith : base + (l + 1) = base + 1 + l := by omega
            rw [harith]
            exact this
        · rw [runTrials_succ]
          simp only [hmatch, Bool.false_eq_true, if_false]
          have harith : base + (i + 1) = base + 1 + i := by omega
          rw [harith]
          exact heq

theorem ite_snd_false {γ : Type} (a : List Nat) (x y : γ) :
    (if ((a, false) : List Nat × Bool).2 = true then x else y) = y := rfl

theorem find_parallel_no_exit (hs : Nat → List Nat) (ps : List FindPattern) :
    ∀ fuel base,
      find_pattern_parallel hs ⟨ps, false⟩ fuel base =
        (((List.range (fuel * FIND_PATTERN_BATCH_SIZE)).map (base + ·)).filter
            (fun t => matchesAny (hs t) ps), false) := by
  intro fuel
  induction fuel with
  | zero => intro base; rw [Nat.zero_mul]; rfl
  | succ n ih =>
    intro base
    rw [find_pattern_parallel_succ]
    rw [runTrials_no_exit hs ps FIND_PATTERN_BATCH_SIZE base]
    rw [ite_snd_false]
    rw [ih (base + FIND_PATTERN_BATCH_SIZE)]
    have hsplit : (n + 1) * FIND_PATTERN_BATCH_SIZE =
        FIND_PATTERN_BATCH_SIZE + n * FIND_PATTERN_BATCH_SIZE := by
      rw [Nat.succ_mul]; omega
    rw [hsplit, List.range_add, List.map_append, List.map_map,
      List.filter_append]
    have hfun : (List.range (n * FIND_PATTERN_BATCH_SIZE)).map
          ((base + ·) ∘ (FIND_PATTERN_BATCH_SIZE + ·)) =
        (List.range (n * FIND_PATTERN_BATCH_SIZE)).map
          ((base + FIND_PATTERN_BATCH_SIZE) + ·) := by
      apply List.map_congr_left
      intro i hi
      simp only [Function.comp_apply]
      omega
    rw [hfun]

theorem find_parallel_exit (hs : Nat → List Nat) (ps : List FindPattern) :
    ∀ fuel base,
      ((∀ i < fuel * FIND_PATTERN_BATCH_SIZE,
            matchesAny (hs (base + i)) ps = false)
         ∧ find_pattern_parallel hs ⟨ps, true⟩ fuel base = ([], false))
      ∨ (∃ i < fuel * FIND_PATTERN_BATCH_SIZE,
            matchesAny (hs (base + i)) ps = true
            ∧ (∀ j < i, matchesAny (hs (base + j)) ps = false)
            ∧ find_pattern_parallel hs ⟨ps, true⟩ fuel base
                = ([base + i], true)) := by
  intro fuel
  induction fuel with
  | zero => intro base; exact Or.inl ⟨by omega, rfl⟩
  | succ n ih =>
    intro base
    have hmul : (n + 1) * FIND_PATTERN_BATCH_SIZE =
        FIND_PATTERN_BATCH_SIZE + n * FIND_PATTERN_BATCH_SIZE := by
      rw [Nat.succ_mul]; omega
    rcases runTrials_exit hs ps FIND_PATTERN_BATCH_SIZE base with
        ⟨hall, heq⟩ | ⟨i, hi, hm, hfirst, heq⟩
    · rcases ih (base + FIND_PATTERN_BATCH_SIZE) with
          ⟨hall2, heq2⟩ | ⟨i, hi, hm, hfirst, heq2⟩
      · refine Or.inl ⟨?_, ?_⟩
        · intro i hilt
          by_cases hcase : i < FIND_PATTERN_BATCH_SIZE
          · exact hall i hcase
          · have harith : base + i =
                base + FIND_PATTERN_BATCH_SIZE + (i - FIND_PATTERN_BATCH_SIZE) := by
              omega
            rw [harith]
            exact hall2 (i - FIND_PATTERN_BATCH_SIZE) (by rw [hmul] at hilt; omega)
        · rw [find_pattern_parallel_succ, heq]
          simp only [Bool.false_eq_true, if_false, heq2]
          rfl
      · refine Or.inr ⟨FIND_PATTERN_BATCH_SIZE + i, by rw [hmul]; omega, ?_, ?_, ?_⟩
        · have harith : base + (FIND_PATTERN_BATCH_SIZE + i) =
              base + FIND_PATTERN_BATCH_SIZE + i := by omega
          rw [harith]
          exact hm
        · intro j hj
          by_cases hcase : j < FIND_PATTERN_BATCH_SIZE
          · exact hall j hcase
          · have harith : base + j =
                base + FIND_PATTERN_BATCH_SIZE + (j - FIND_PATTERN_BATCH_SIZE) := by
              omega
            rw [harith]
            exact hfirst (j - FIND_PATTERN_BATCH_SIZE) (by omega)
        · rw [find_pattern_parallel_succ, heq]
          simp only [Bool.false_eq_true, if_false, heq2]
          have harith : base + FIND_PATTERN_BATCH_SIZE + i =
              base + (FIND_PATTERN_BATCH_SIZE + i) := by omega
          rw [← harith]
          rfl
    · refine Or.inr ⟨i, by rw [hmul]; omega, hm, hfirst, ?_⟩
      rw [find_pattern_parallel_succ, heq]
      rfl

/-- Claim C5: in vanity search, when `exit_when_found` is true the loop
terminates exactly when a trial within the observed batches matches, and
on termination it has reported exactly once, namely the first matching
trial; when `exit_when_found` is false the loop never terminates on its
own (the flag stays false after any number of batches) and it reports
every matching trial among all trials scanned so far.  The batch `any` is
modelled by its sequential semantics: trials in order, stopping at the
first trial that returns true. -/
theorem claim5_exit_when_found (hs : Nat → List Nat) (ps : List FindPattern)
    (fuel : Nat) :
    (((find_pattern_parallel hs ⟨ps, true⟩ fuel 0).2 = true ↔
        ∃ t < fuel * FIND_PATTERN_BATCH_SIZE, matchesAny (hs t) ps = true)
      ∧ ((find_pattern_parallel hs ⟨ps, true⟩ fuel 0).2 = true →
          ∃ t, matchesAny (hs t) ps = true
            ∧ (∀ s < t, matchesAny (hs s) ps = false)
            ∧ (find_pattern_parallel hs ⟨ps, true⟩ fuel 0).1 = [t]))
    ∧ ((find_pattern_parallel hs ⟨ps, false⟩ fuel 0).2 = false
        ∧ (find_pattern_parallel hs ⟨ps, false⟩ fuel 0).1 =
            (List.range (fuel * FIND_PATTERN_BATCH_SIZE)).filter
              (fun t => matchesAny (hs t) ps)) := by
  have hzero : ∀ i : Nat, (0 : Nat) + i = i := fun i => Nat.zero_add i
  constructor
  · constructor
    · constructor
      · intro hterm
        rcases find_parallel_exit hs ps fuel 0 with ⟨hall, heq⟩ | ⟨i, hi, hm, hfirst, heq⟩
        · rw [heq] at hterm; cases hterm
        · exact ⟨i, hi, by rw [← hzero i]; exact hm⟩
      · intro ⟨t, ht, hmt⟩
        rcases find_parallel_exit hs ps fuel 0 with ⟨hall, heq⟩ | ⟨i, hi, hm, hfirst, heq⟩
        · have := hall t ht
          rw [hzero t] at this
          rw [this] at hmt
          cases hmt
        · rw [heq]
    · intro hterm
      rcases find_parallel_exit hs ps fuel 0 with ⟨hall, heq⟩ | ⟨i, hi, hm, hfirst, heq⟩
      · rw [heq] at hterm; cases hterm
      · refine ⟨i, by rw [← hzero i]; exact hm, ?_, ?_⟩
        · intro s hs2
          have := hfirst s hs2
          rw [hzero s] at this
          exact this
        · rw [heq, hzero i]
  · have h := find_parallel_no_exit hs ps fuel 0
    rw [h]
    refine ⟨rfl, ?_⟩
    simp only []
    congr 1
    exact List.map_id'' (fun i => Nat.zero_add i) _

/-- The all-zero candidate hash stream, a concrete instance of the
external candidate source. -/
def hashStreamZero : Nat → List Nat := fun _ => List.replicate 20 0

/-- Witness for C5: with all-zero hashes and the match-everything pattern
`⟨0, 0⟩`, `exit_when_found = true` and one batch of fuel, the loop
terminates having reported exactly the first trial. -/
theorem claim5_witness :
    ∃ t, matchesAny (hashStreamZero t) [(⟨0, 0⟩ : FindPattern)] = true
      ∧ (∀ s < t, matchesAny (hashStreamZero s) [(⟨0, 0⟩ : FindPattern)] = false)
      ∧ (find_pattern_parallel hashStreamZero ⟨[⟨0, 0⟩], true⟩ 1 0).1 = [t] :=
  (claim5_exit_when_found hashStreamZero [⟨0, 0⟩] 1).1.2
    ((claim5_exit_when_found hashStreamZero [⟨0, 0⟩] 1).1.1.mpr
      ⟨0, by decide, by decide⟩)

end MahTsIdentity

namespace MahTsIdentity

/-! ### Lemmas about wildcard-only and literal-only patterns, claim C7 -/

theorem scanPattern_wildcards (inp : List Char)
    (h : ∀ c ∈ inp, c = '_' ∨ c = '?') :
    scanPattern inp =
      .ok (List.replicate inp.length 0, List.replicate inp.length 'A') := by
  induction inp with
  | nil => rfl
  | cons c rest ih =>
    have hc := h c (List.mem_cons_self c rest)
    have hlit : isPatternLiteralChar c = false := by
      rcases hc with rfl | rfl <;> decide
    have hwild : (c = '_' || c = '?' : Bool) = true := by
      rcases hc with rfl | rfl <;> decide
    have hrest := ih (fun d hd => h d (List.mem_cons_of_mem c hd))
    simp only [scanPattern, hlit, Bool.false_eq_true, if_false, hwild, if_true,
      hrest, List.length_cons, List.replicate_succ]

theorem scanPattern_literals (inp : List Char)
    (h : ∀ c ∈ inp, isPatternLiteralChar c = true) :
    scanPattern inp = .ok (List.replicate inp.length 63, inp) := by
  induction inp with
  | nil => rfl
  | cons c rest ih =>
    have hlit := h c (List.mem_cons_self c rest)
    have hrest := ih (fun d hd => h d (List.mem_cons_of_mem c hd))
    simp only [scanPattern, hlit, if_true, hrest, List.length_cons,
      List.replicate_succ]

theorem buildMask_replicate_zero (n : Nat) :
    buildMask (List.replicate n 0) = 0 := by
  have hg : ∀ i, (List.replicate n 0).getD i 0 = 0 := by
    intro i
    rcases Nat.lt_or_ge i n with hlt | hge
    · rw [List.getD_eq_getElem?_getD, List.getElem?_replicate, if_pos hlt]
      rfl
    · rw [List.getD_eq_getElem?_getD, List.getElem?_eq_none (by simpa using hge)]
      rfl
  unfold buildMask
  rw [show List.range 10 = [0, 1, 2, 3, 4, 5, 6, 7, 8, 9] from rfl]
  simp [hg, Nat.zero_shiftLeft, Nat.or_zero]

theorem buildMask_replicate_63 (n : Nat) (hn : n ≤ 10) :
    buildMask (List.replicate n 63) =
      (2 ^ (6 * n) - 1) <<< (64 - 6 * n) := by
  interval_cases n <;> decide

theorem and_window (h k m : Nat) :
    h &&& ((2 ^ k - 1) <<< m) = ((h >>> m) % 2 ^ k) <<< m := by
  apply Nat.eq_of_testBit_eq
  intro i
  simp only [Nat.testBit_and, Nat.testBit_shiftLeft,
    Nat.testBit_two_pow_sub_one, Nat.testBit_mod_two_pow,
    Nat.testBit_shiftRight]
  by_cases hmi : m ≤ i
  · have hrw : m + (i - m) = i := by omega
    simp only [ge_iff_le, hmi, decide_eq_true_eq, hrw, decide_True]
    cases h.testBit i <;> cases hdk : decide (i - m < k) <;> simp
  · have h1 : decide (i ≥ m) = false := by
      simp [hmi]
    simp [h1]

theorem shiftRight_lt_pow (h m k : Nat) (hh : h < 2 ^ (k + m)) :
    h >>> m < 2 ^ k := by
  rw [Nat.shiftRight_eq_div_pow]
  apply Nat.div_lt_of_lt_mul
  have hpow : 2 ^ m * 2 ^ k = 2 ^ (k + m) := by
    rw [← pow_add, Nat.add_comm]
  rw [hpow]
  exact hh

theorem shiftLeft_inj_right (a b m : Nat) (h : a <<< m = b <<< m) : a = b := by
  rw [Nat.shiftLeft_eq, Nat.shiftLeft_eq] at h
  exact Nat.eq_of_mul_eq_mul_right (Nat.two_pow_pos m) h

theorem shiftLeft_shiftRight_cancel (a m : Nat) : (a <<< m) >>> m = a := by
  rw [Nat.shiftLeft_eq, Nat.shiftRight_eq_div_pow]
  exact Nat.mul_div_cancel a (Nat.two_pow_pos m)

theorem matchTest_window (p : FindPattern) (tR k m : Nat)
    (hmask : p.mask = (2 ^ k - 1) <<< m)
    (htext : p.text = tR &&& p.mask)
    (h : Nat) (hh : h < 2 ^ (k + m)) :
    (matchTest h p = true ↔ h >>> m = p.text >>> m) := by
  have hmod : (h >>> m) % 2 ^ k = h >>> m :=
    Nat.mod_eq_of_lt (shiftRight_lt_pow h m k hh)
  have htm : p.text >>> m = (tR >>> m) % 2 ^ k := by
    rw [htext, hmask, and_window, shiftLeft_shiftRight_cancel]
  have hhm : h &&& p.mask = (h >>> m) <<< m := by
    rw [hmask, and_window, hmod]
  have hpt : p.text = ((tR >>> m) % 2 ^ k) <<< m := by
    rw [htext, hmask, and_window]
  simp only [matchTest, beq_iff_eq]
  rw [hhm, htm]
  constructor
  · intro heq
    rw [hpt] at heq
    exact shiftLeft_inj_right _ _ m heq
  · intro heq
    rw [hpt, heq]

theorem compilePattern_literals (inp : List Char) (p : FindPattern)
    (hlit : ∀ c ∈ inp, isPatternLiteralChar c = true)
    (h : compilePattern inp = .ok p) :
    inp.length ≤ 10
    ∧ p.mask = (2 ^ (6 * inp.length) - 1) <<< (64 - 6 * inp.length)
    ∧ ∃ tR, p.text = tR &&& p.mask := by
  unfold compilePattern at h
  by_cases hlen : inp.length > MAX_PATTERN_LEN
  · rw [if_pos hlen] at h; cases h
  · rw [if_neg hlen] at h
    rw [scanPattern_literals inp hlit] at h
    dsimp only at h
    cases hdec : b64DecodeGroups
        ((inp ++ List.replicate (27 - inp.length) 'A') ++ ['=']) with
    | none => rw [hdec] at h; cases h
    | some bytes =>
      rw [hdec] at h
      rw [Except.ok.injEq] at h
      subst h
      have hlen10 : inp.length ≤ 10 := by
        unfold MAX_PATTERN_LEN at hlen; omega
      exact ⟨hlen10, buildMask_replicate_63 inp.length hlen10,
        ⟨readU64BE bytes, rfl⟩⟩

/-- Claim C7 counterexample: the maximal zero-wildcard pattern (ten `'A'`
symbols) compiles to mask `0xFFFFFFFFFFFFFFF0`, which leaves the bottom 4
bits of the 64-bit comparison window unconstrained: the two distinct
window values 0 and 1 both satisfy the match test, so no compiled pattern
matches exactly one value of the 64-bit window. -/
theorem claim7_counterexample :
    compilePattern (List.replicate 10 'A') = .ok ⟨0, 0xFFFFFFFFFFFFFFF0⟩
    ∧ matchTest 0 ⟨0, 0xFFFFFFFFFFFFFFF0⟩ = true
    ∧ matchTest 1 ⟨0, 0xFFFFFFFFFFFFFFF0⟩ = true
    ∧ (0 : Nat) ≠ 1 ∧ (0 : Nat) < 2 ^ 64 ∧ (1 : Nat) < 2 ^ 64 := by
  refine ⟨rfl, rfl, rfl, by decide, by decide, by decide⟩

/-- Claim C7 (amended): a compiled pattern consisting only of wildcard
characters matches every possible 64-bit hash value; a compiled pattern
with zero wildcard characters of length `n` determines exactly the top
`6·n` bits of the window: a 64-bit value matches iff its top `6·n` bits
agree with `text`, so `2^(64-6·n)` window values match — never exactly
one, because at most 60 of the 64 bits are ever constrained. -/
theorem claim7_amended :
    (∀ inp : List Char, (∀ c ∈ inp, c = '_' ∨ c = '?') →
        inp.length ≤ MAX_PATTERN_LEN →
        compilePattern inp = .ok ⟨0, 0⟩
          ∧ ∀ h : Nat, matchTest h ⟨0, 0⟩ = true)
    ∧ (∀ (inp : List Char) (p : FindPattern),
        (∀ c ∈ inp, isPatternLiteralChar c = true) →
        compilePattern inp = .ok p →
        ∀ h : Nat, h < 2 ^ 64 →
          (matchTest h p = true ↔
            h >>> (64 - 6 * inp.length) = p.text >>> (64 - 6 * inp.length))) := by
  constructor
  · intro inp hw hlen
    constructor
    · unfold compilePattern
      rw [if_neg (by omega), scanPattern_wildcards inp hw]
      dsimp only
      have hchar : (List.replicate inp.length 'A' ++
            List.replicate (27 - (List.replicate inp.length 'A').length) 'A')
            ++ ['='] = List.replicate 27 'A' ++ ['='] := by
        rw [List.length_replicate, ← List.replicate_add]
        have h27 : inp.length + (27 - inp.length) = 27 := by
          unfold MAX_PATTERN_LEN at hlen; omega
        rw [h27]
      rw [hchar]
      have hdec : b64DecodeGroups (List.replicate 27 'A' ++ ['=']) =
          some (List.replicate 20 0) := by decide
      rw [hdec]
      dsimp only
      rw [buildMask_replicate_zero]
      simp [Nat.and_zero]
    · intro h
      simp [matchTest, Nat.and_zero]
  · intro inp p hlit hcomp h hh
    obtain ⟨hlen10, hmask, tR, htext⟩ :=
      compilePattern_literals inp p hlit hcomp
    have hkm : 6 * inp.length + (64 - 6 * inp.length) = 64 := by omega
    apply matchTest_window p tR (6 * inp.length) (64 - 6 * inp.length)
      hmask htext h
    rw [hkm]
    exact hh

/-- Witness for the amended C7: the all-wildcard pattern `"_"` and the
zero-wildcard pattern `"A"` at window value 0. -/
theorem claim7_witness :
    (compilePattern ['_'] = .ok ⟨0, 0⟩
      ∧ ∀ h : Nat, matchTest h ⟨0, 0⟩ = true)
    ∧ (matchTest 0 ⟨0, 0xFC00000000000000⟩ = true ↔
        (0 : Nat) >>> (64 - 6 * (['A'] : List Char).length) =
          (FindPattern.mk 0 0xFC00000000000000).text >>>
            (64 - 6 * (['A'] : List Char).length)) :=
  ⟨claim7_amended.1 ['_'] (by decide) (by decide),
   claim7_amended.2 ['A'] ⟨0, 0xFC00000000000000⟩ (by decide) rfl 0 (by decide)⟩

end MahTsIdentity
